import Mathlib

/-!
Shallow embedding of `app/renderer/sceneStateEvaluator.js`, the
cursor-synchronized execution driver of the scene preview.

The external ink engine (inkjs) is modelled as an abstract interface
`EngineModel` over an opaque engine-state type, following the contract the
evaluator relies on (`canContinue`, `Continue`, `currentChoices`,
`ChooseChoiceIndex`, `currentDebugMetadata`, `state.ToJson`/`LoadJson`,
variable lookup).  Every function of the evaluator module is translated
directly from the JavaScript source; fallible engine calls are modelled in
`Except`, JavaScript truthiness checks are made explicit, and the
JavaScript `Infinity` sentinel for a missing start line is modelled as
`Option.none`.
-/

/-- A JavaScript value as far as `coerceValue` distinguishes them:
`vObjWithValue` models an object exposing a `value` property,
`vObjWithValueOf` an object with a custom `valueOf` method and no `value`
property, `vObjPlain` any other object. -/
inductive JsValue
  | vNull
  | vUndefined
  | vNum (n : Int)
  | vStr (s : String)
  | vBool (b : Bool)
  | vObjWithValue (inner : JsValue)
  | vObjWithValueOf (inner : JsValue)
  | vObjPlain
deriving DecidableEq

/-- `coerceValue` from the source: null/undefined become null, a boxed
`value` property is unwrapped, a custom `valueOf` result is used,
everything else passes through. -/
def coerceValue : JsValue → JsValue
  | .vNull => .vNull
  | .vUndefined => .vNull
  | .vObjWithValue inner => inner
  | .vObjWithValueOf inner => inner
  | v => v

/-- Debug metadata attached by the engine to executed content.  Fields the
evaluator reads: `fileName`, `sourceName`, `startLineNumber`,
`endLineNumber`; each may be absent. -/
structure DebugMeta where
  fileName : Option String
  sourceName : Option String
  startLineNumber : Option Nat
  endLineNumber : Option Nat
deriving DecidableEq

/-- JavaScript string truthiness: an absent or empty string is falsy.
Returns the string when truthy, `none` otherwise. -/
def truthyStr : Option String → Option String
  | none => none
  | some s => if s = "" then none else some s

/-- JavaScript `a || b` on two possibly-absent strings, as used in
`var name = dm.fileName || dm.sourceName`. -/
def jsOrStr (a b : Option String) : Option String :=
  match truthyStr a with
  | some s => some s
  | none => truthyStr b

/-- A path separator, forward slash or backslash, as in the source regex. -/
def isPathSep (ch : Char) : Bool := ch = '/' || ch = Char.ofNat 92

/-- `s.replace(/^.*[/\x5c]/, "")`: the suffix after the last path
separator (the whole string when there is none). -/
def basename (s : String) : String :=
  String.mk ((s.toList.reverse.takeWhile (fun ch => !isPathSep ch)).reverse)

/-- `fileMatchesCursor` from the source.  `none` for the metadata models a
null/undefined `dm` argument (rejected); an absent or empty file name in
the metadata, or an absent or empty cursor path, accepts unconditionally;
otherwise exact equality, then basename equality. -/
def fileMatchesCursor (dm? : Option DebugMeta) (cursorFilePath : Option String) : Bool :=
  match dm? with
  | none => false
  | some dm =>
    match jsOrStr dm.fileName dm.sourceName with
    | none => true
    | some name =>
      match truthyStr cursorFilePath with
      | none => true
      | some cfp =>
        if name = cfp then true
        else decide (basename name = basename cfp)

/-- The record `getCurrentLine` builds: `{line, endLine, fileMatch}`. -/
structure LineInfo where
  line : Option Nat
  endLine : Option Nat
  fileMatch : Bool
deriving DecidableEq

/-- `getCurrentLine` from the source: `none` when the story carries no
current debug metadata, otherwise the start/end lines plus the
file-identity verdict. -/
def getCurrentLine (dm? : Option DebugMeta) (cursorFilePath : Option String) :
    Option LineInfo :=
  match dm? with
  | none => none
  | some dm =>
    some { line := dm.startLineNumber
           endLine := dm.endLineNumber
           fileMatch := fileMatchesCursor (some dm) cursorFilePath }

/-- JavaScript `info.line >= cursorLine` where `info.line` may be
undefined (`undefined >= n` is false via NaN). -/
def lineGE : Option Nat → Nat → Bool
  | some l, c => decide (l ≥ c)
  | none, _ => false

/-- The driver's stop test `info && info.fileMatch && info.line >= cursorLine`. -/
def reachedAt (info? : Option LineInfo) (cursorLine : Nat) : Bool :=
  match info? with
  | none => false
  | some info => info.fileMatch && lineGE info.line cursorLine

/-- The view of a story that `snapshotVariablesState` touches, with each
JavaScript failure point explicit: `hasState` is the truthiness of
`story.state`; `jsonStr` is the `ToJson` result (`none` or `""` falsy);
`parsedVariablesState` is `none` when `JSON.parse` throws, `some none`
when the parsed object's `variablesState` is missing or not an object,
and `some (some names)` its key list otherwise; `hasGetVar` is whether
`GetVariableWithName` is a function; `getVar` is the per-name lookup,
which may throw (`Except.error`). -/
structure SnapStory where
  hasState : Bool
  jsonStr : Option String
  parsedVariablesState : Option (Option (List String))
  hasGetVar : Bool
  getVar : String → Except Unit JsValue

/-- The per-name loop of `snapshotVariablesState`: a lookup that throws
skips only that variable. -/
def snapVarsLoop (getVar : String → Except Unit JsValue) :
    List String → List (String × JsValue) → List (String × JsValue)
  | [], vars => vars
  | name :: rest, vars =>
    match getVar name with
    | .ok inkObj => snapVarsLoop getVar rest (vars ++ [(name, coerceValue inkObj)])
    | .error _ => snapVarsLoop getVar rest vars

/-- `snapshotVariablesState` from the source: every failure point short
circuits to the variables collected so far (the empty mapping, since all
failure points precede the loop). -/
def snapshotVariablesState (st : SnapStory) : List (String × JsValue) :=
  if st.hasState then
    match truthyStr st.jsonStr with
    | none => []
    | some _ =>
      match st.parsedVariablesState with
      | none => []
      | some none => []
      | some (some names) =>
        if st.hasGetVar then snapVarsLoop st.getVar names [] else []
  else []

/-- The engine contract the evaluator consumes, over an opaque engine
state `σ` and an opaque serialized-state blob `β`.  `currentChoices`
returns the length of the choice list, `none` modelling a missing list;
`chooseChoiceIndex` may throw, the error carrying the engine state at the
moment of the throw; `snapView` is the projection `snapshotVariablesState`
reads. -/
structure EngineModel (σ β : Type) where
  canContinue : σ → Bool
  continueStep : σ → σ
  currentChoices : σ → Option Nat
  chooseChoiceIndex : σ → Nat → Except σ σ
  currentDebugMetadata : σ → Option DebugMeta
  stateToJson : σ → β
  loadJson : σ → β → σ
  snapView : σ → SnapStory

/-- Snapshot of the variables of an engine state. -/
def snapOf {σ β : Type} (E : EngineModel σ β) (s : σ) : List (String × JsValue) :=
  snapshotVariablesState (E.snapView s)

/-- `(dm && dm.startLineNumber) ? dm.startLineNumber : Infinity` — the
start line recorded for a probed branch; `none` models `Infinity` (also
chosen when `startLineNumber` is 0, which is falsy in JavaScript). -/
def recordedStartLine (dm? : Option DebugMeta) : Option Nat :=
  match dm? with
  | none => none
  | some dm =>
    match dm.startLineNumber with
    | none => none
    | some n => if n = 0 then none else some n

/-- `x <= cursorLine` for a recorded line that may be `Infinity` (`none`):
infinity is never `<=` a finite cursor line. -/
def infLe : Option Nat → Nat → Bool
  | some l, c => decide (l ≤ c)
  | none, _ => false

/-- Strict order on recorded lines with `none` as `Infinity`. -/
def infLt : Option Nat → Option Nat → Bool
  | some a, some b => decide (a < b)
  | some _, none => true
  | none, _ => false

/-- The selection loop of `chooseBranchIndex`: `best = 0; for i: if
lines[i] <= cursorLine then best = i`. -/
def bestBranchLoop (cursorLine : Nat) : List (Option Nat) → Nat → Nat → Nat
  | [], _, best => best
  | l :: rest, i, best =>
    bestBranchLoop cursorLine rest (i + 1) (if infLe l cursorLine then i else best)

/-- The branch picked from the recorded start lines: the last index whose
line is `<=` the cursor line, defaulting to 0. -/
def bestBranchOf (branchStartLines : List (Option Nat)) (cursorLine : Nat) : Nat :=
  bestBranchLoop cursorLine branchStartLines 0 0

/-- The probing loop of `chooseBranchIndex`: for each choice index (the
saved state is reloaded first for every index after the first), select the
choice and record the start line of the debug metadata it produces.  An
exception from `ChooseChoiceIndex` propagates, carrying the engine state
at the throw; note the source wraps this loop in no try/finally. -/
def probeBranches {σ β : Type} (E : EngineModel σ β) (saved : β) :
    σ → List Nat → Except σ (List (Option Nat) × σ)
  | story, [] => .ok ([], story)
  | story, i :: rest =>
    let story1 := if 0 < i then E.loadJson story saved else story
    match E.chooseChoiceIndex story1 i with
    | .error sBad => .error sBad
    | .ok story2 =>
      let startLine := recordedStartLine (E.currentDebugMetadata story2)
      match probeBranches E saved story2 rest with
      | .error sBad => .error sBad
      | .ok (lines, storyEnd) => .ok (startLine :: lines, storyEnd)

/-- `chooseBranchIndex` from the source.  Returns the chosen index along
with the engine state as left behind (the reloaded saved state on the
normal path), or the state at the moment of an exception thrown during
probing.  The `cursorFilePath` parameter is accepted and never read, as in
the source. -/
def chooseBranchIndex {σ β : Type} (E : EngineModel σ β) (story : σ)
    (_cursorFilePath : Option String) (cursorLine : Nat) : Except σ (Nat × σ) :=
  match E.currentChoices story with
  | none => .ok (0, story)
  | some len =>
    if len = 0 then .ok (0, story)
    else if len = 1 then .ok (0, story)
    else
      let savedState := E.stateToJson story
      match probeBranches E savedState story (List.range len) with
      | .error sBad => .error sBad
      | .ok (branchStartLines, storyEnd) =>
        .ok (bestBranchOf branchStartLines cursorLine, E.loadJson storyEnd savedState)

/-- The hard step ceiling of the driver loop. -/
def MAX_STEPS : Nat := 10000

/-- The `while (steps < MAX_STEPS)` loop of `runToCursor`, with the
remaining iteration budget as fuel.  The source also snapshots `prevVars`
immediately before each `Continue()` and never reads it; that dead
assignment is omitted here.  An exception thrown by a choice call
propagates as `Except.error` carrying the engine state at the throw. -/
def runToCursorLoop {σ β : Type} (E : EngineModel σ β)
    (cursorFilePath : Option String) (cursorLine : Nat) :
    Nat → σ → List (String × JsValue) → Except σ (List (String × JsValue))
  | 0, _, lastVars => .ok lastVars
  | fuel + 1, story, lastVars =>
    if E.canContinue story then
      let story1 := E.continueStep story
      let info := getCurrentLine (E.currentDebugMetadata story1) cursorFilePath
      if reachedAt info cursorLine then
        .ok (snapOf E story1)
      else
        runToCursorLoop E cursorFilePath cursorLine fuel story1 (snapOf E story1)
    else
      match E.currentChoices story with
      | some n =>
        if 0 < n then
          match chooseBranchIndex E story cursorFilePath cursorLine with
          | .error sBad => .error sBad
          | .ok (idx, story2) =>
            match E.chooseChoiceIndex story2 idx with
            | .error sBad => .error sBad
            | .ok story3 => runToCursorLoop E cursorFilePath cursorLine fuel story3 lastVars
        else .ok (snapOf E story)
      | none => .ok (snapOf E story)

/-- `runToCursor` from the source: run from the given story state with the
full step budget; `lastVars` starts as the snapshot of the initial state. -/
def runToCursor {σ β : Type} (E : EngineModel σ β) (story : σ)
    (cursorFilePath : Option String) (cursorLine : Nat) :
    Except σ (List (String × JsValue)) :=
  runToCursorLoop E cursorFilePath cursorLine MAX_STEPS story (snapOf E story)

/-- The observable effect of one evaluation on the presentation
collaborator (`SceneView`): `cleared` models `SceneView.clear()`,
`compileErrorShown`/`runtimeErrorShown` the two `showError` call sites,
`sceneUpdated` the `updateScene` call. -/
inductive EvalOutcome
  | cleared
  | compileErrorShown (msg : String)
  | runtimeErrorShown
  | sceneUpdated (vars : List (String × JsValue))
deriving DecidableEq

/-- The result of `compiler.Compile()` when it does not throw: the story
plus the `compiler.errors` diagnostic list. -/
structure CompileResult (σ : Type) where
  story : σ
  errors : List String

/-- `evaluateAtLine` from the source: missing project or missing main ink
file clears the view before anything else runs; a compile throw or a
non-empty compiler error list shows an error; otherwise the driver runs
and either updates the scene or, on an exception, shows an error. -/
def evaluateAtLine {σ β : Type} (E : EngineModel σ β)
    (compileRes : Except String (CompileResult σ))
    (cursorLine : Nat) (cursorFilePath : Option String)
    (hasProject : Bool) (hasMainInk : Bool) : EvalOutcome :=
  if hasProject && hasMainInk then
    match compileRes with
    | .error msg => .compileErrorShown msg
    | .ok res =>
      if 0 < res.errors.length then
        .compileErrorShown (String.intercalate "\n" res.errors)
      else
        match runToCursor E res.story cursorFilePath cursorLine with
        | .ok vars => .sceneUpdated vars
        | .error _ => .runtimeErrorShown
  else .cleared

/-- The observable effect of one debounced request: either the view is
cleared immediately, or an evaluation is scheduled whose eventual outcome
is recorded. -/
inductive DebounceOutcome
  | clearedNow
  | scheduledRun (result : EvalOutcome)
deriving DecidableEq

/-- `evaluateAtCursorDebounced` from the source: missing project or
missing active ink file clears the view immediately; otherwise
`evaluateAtLine` is scheduled with the active file's relative path as the
cursor file path. -/
def evaluateAtCursorDebounced {σ β : Type} (E : EngineModel σ β)
    (compileRes : Except String (CompileResult σ)) (cursorLine : Nat)
    (hasProject : Bool) (activeInkFile : Option String)
    (hasMainInk : Bool) : DebounceOutcome :=
  if hasProject then
    match activeInkFile with
    | none => .clearedNow
    | some path =>
      .scheduledRun (evaluateAtLine E compileRes cursorLine (some path) hasProject hasMainInk)
  else .clearedNow

/-! ### Concrete engine instances used by witnesses and counterexamples -/

/-- A snapshot view with an inaccessible state object. -/
def emptySnapStory : SnapStory :=
  { hasState := false
    jsonStr := none
    parsedVariablesState := none
    hasGetVar := false
    getVar := fun _ => .error () }

/-- An engine that is never at a choice point and whose choice call always
throws (so any `.ok` result proves no choice call happened). -/
def engineNoChoices : EngineModel Nat Nat :=
  { canContinue := fun _ => false
    continueStep := fun s => s
    currentChoices := fun _ => none
    chooseChoiceIndex := fun s _ => .error s
    currentDebugMetadata := fun _ => none
    stateToJson := fun s => s
    loadJson := fun _ b => b
    snapView := fun _ => emptySnapStory }

/-- An engine at a three-way choice point in state 0: choosing branch `i`
moves to state `100 + i`, whose metadata starts at line 5, 8 or 12.
Serialization is the identity, so reloading the saved blob restores
state 0 exactly. -/
def engineThreeChoices : EngineModel Nat Nat :=
  { canContinue := fun _ => false
    continueStep := fun s => s
    currentChoices := fun s => if s = 0 then some 3 else none
    chooseChoiceIndex := fun _ i => .ok (100 + i)
    currentDebugMetadata := fun s =>
      if s = 100 then some ⟨none, none, some 5, some 5⟩
      else if s = 101 then some ⟨none, none, some 8, some 8⟩
      else if s = 102 then some ⟨none, none, some 12, some 12⟩
      else none
    stateToJson := fun s => s
    loadJson := fun _ b => b
    snapView := fun _ => emptySnapStory }

/-- An engine at a two-way choice point whose `ChooseChoiceIndex` throws
after mutating the state from `s` to `s + 1`.  Serialization is the
identity, so restoring the saved blob was always possible. -/
def engineThrowingChoice : EngineModel Nat Nat :=
  { canContinue := fun _ => false
    continueStep := fun s => s
    currentChoices := fun _ => some 2
    chooseChoiceIndex := fun s _ => .error (s + 1)
    currentDebugMetadata := fun _ => none
    stateToJson := fun s => s
    loadJson := fun _ b => b
    snapView := fun _ => emptySnapStory }

/-- A linear two-step engine: state counts executed steps, the single
variable `x` equals the step count.  Step 1 produces a location at line 3,
step 2 a location at line 7; the story then ends. -/
def engineLinear : EngineModel Nat Nat :=
  { canContinue := fun s => decide (s < 2)
    continueStep := fun s => s + 1
    currentChoices := fun _ => none
    chooseChoiceIndex := fun s _ => .ok s
    currentDebugMetadata := fun s =>
      if s = 1 then some ⟨none, none, some 3, some 3⟩
      else if s = 2 then some ⟨none, none, some 7, some 7⟩
      else none
    stateToJson := fun s => s
    loadJson := fun _ b => b
    snapView := fun s =>
      { hasState := true
        jsonStr := some "state"
        parsedVariablesState := some (some ["x"])
        hasGetVar := true
        getVar := fun name => if name = "x" then .ok (JsValue.vNum s) else .error () } }

/-- An engine that can always continue, never produces debug metadata, and
never changes state: the driver's step ceiling is its only way out. -/
def engineInfinite : EngineModel Nat Nat :=
  { canContinue := fun _ => true
    continueStep := fun s => s
    currentChoices := fun _ => none
    chooseChoiceIndex := fun s _ => .ok s
    currentDebugMetadata := fun _ => none
    stateToJson := fun s => s
    loadJson := fun _ b => b
    snapView := fun _ => emptySnapStory }

/-- A snapshot view with two variables, of which `b` cannot be read. -/
def snapStoryPartial : SnapStory :=
  { hasState := true
    jsonStr := some "{}"
    parsedVariablesState := some (some ["a", "b"])
    hasGetVar := true
    getVar := fun name => if name = "a" then .ok (JsValue.vNum 1) else .error () }

/-! ### Helper lemmas -/

/-- `x < y` and `y <= c` give `x <= c` on recorded lines with `Infinity`. -/
lemma infLe_of_infLt_of_infLe {x y : Option Nat} {c : Nat}
    (hxy : infLt x y = true) (hyc : infLe y c = true) : infLe x c = true := by
  cases x <;> cases y <;> simp [infLt, infLe] at *
  omega

/-- The selection loop returns its accumulator when no recorded line
qualifies, and otherwise `n +` the greatest qualifying index. -/
lemma bestBranchLoop_last (c : Nat) (ls : List (Option Nat)) :
    ∀ (n b : Nat),
      (bestBranchLoop c ls n b = b ∧
        ∀ i (h : i < ls.length), infLe ls[i] c = false) ∨
      (∃ i, ∃ h : i < ls.length, infLe ls[i] c = true ∧
        bestBranchLoop c ls n b = n + i ∧
        ∀ j (hj : j < ls.length), i < j → infLe ls[j] c = false) := by
  induction ls with
  | nil =>
    intro n b
    left
    exact ⟨rfl, fun i h => absurd h (by simp)⟩
  | cons l rest ih =>
    intro n b
    by_cases hl : infLe l c = true
    · rcases ih (n + 1) n with ⟨heq, hall⟩ | ⟨i, hi, hle, heq, hmax⟩
      · right
        refine ⟨0, by simp, by simpa using hl, ?_, ?_⟩
        · simp [bestBranchLoop, hl, heq]
        · intro j hj hjpos
          cases j with
          | zero => omega
          | succ j =>
            simpa using hall j (by simpa using Nat.lt_of_succ_lt_succ hj)
      · right
        refine ⟨i + 1, by simpa using Nat.succ_lt_succ hi, by simpa using hle, ?_, ?_⟩
        · simp [bestBranchLoop, hl, heq]
          omega
        · intro j hj hji
          cases j with
          | zero => omega
          | succ j =>
            simpa using hmax j (by simpa using Nat.lt_of_succ_lt_succ hj) (by omega)
    · have hl2 : infLe l c = false := by simpa using hl
      rcases ih (n + 1) b with ⟨heq, hall⟩ | ⟨i, hi, hle, heq, hmax⟩
      · left
        constructor
        · simp [bestBranchLoop, hl2, heq]
        · intro i h
          cases i with
          | zero => simpa using hl2
          | succ i => simpa using hall i (by simpa using Nat.lt_of_succ_lt_succ h)
      · right
        refine ⟨i + 1, by simpa using Nat.succ_lt_succ hi, by simpa using hle, ?_, ?_⟩
        · simp [bestBranchLoop, hl2, heq]
          omega
        · intro j hj hji
          cases j with
          | zero => omega
          | succ j =>
            simpa using hmax j (by simpa using Nat.lt_of_succ_lt_succ hj) (by omega)

/-! ### Claim theorems -/

/-- C7: for every debug location and cursor, the file-identity check
accepts when the location carries no (truthy) file identity, accepts when
the cursor has no (truthy) file path, accepts on exact path equality,
accepts when the basenames of the two paths coincide, and rejects
otherwise. -/
theorem fileMatchesCursor_characterization (dm : DebugMeta) (cfp? : Option String) :
    fileMatchesCursor (some dm) cfp? = true ↔
      (jsOrStr dm.fileName dm.sourceName = none ∨
       truthyStr cfp? = none ∨
       ∃ name cfp, jsOrStr dm.fileName dm.sourceName = some name ∧
         truthyStr cfp? = some cfp ∧
         (name = cfp ∨ basename name = basename cfp)) := by
  cases hn : jsOrStr dm.fileName dm.sourceName with
  | none => simp [fileMatchesCursor, hn]
  | some name =>
    cases hc : truthyStr cfp? with
    | none => simp [fileMatchesCursor, hn, hc]
    | some cfp =>
      by_cases he : name = cfp
      · simp [fileMatchesCursor, hn, hc, he]
      · simp [fileMatchesCursor, hn, hc, he]

/-- C9: on a missing or empty choice list the branch selector is total
and returns index 0 with the engine state untouched; it holds for every
engine, in particular ones whose choice call always throws, so no probe or
choice is ever made. -/
theorem chooseBranchIndex_empty_choices {σ β : Type} (E : EngineModel σ β) (story : σ)
    (cfp : Option String) (c : Nat)
    (h : E.currentChoices story = none ∨ E.currentChoices story = some 0) :
    chooseBranchIndex E story cfp c = .ok (0, story) := by
  rcases h with h | h <;> simp [chooseBranchIndex, h]

/-- C9 witness: a concrete engine with a missing choice list whose choice
call always throws still yields index 0 and the unchanged state. -/
theorem chooseBranchIndex_empty_choices_witness :
    chooseBranchIndex engineNoChoices 0 none 5 = .ok (0, 0) :=
  chooseBranchIndex_empty_choices engineNoChoices 0 none 5 (Or.inl rfl)

/-- C8: each entry point produces the cleared outcome under its own guard
alone — `evaluateAtLine` when no project is loaded or the project has no
main ink file, and the debounced entry when no project is loaded or the
cursor's file is not part of the project (no active ink file) — for every
possible compile result and engine, so the driver's behavior never enters
into the result; and the cleared outcome is a different constructor from
either error display. -/
theorem evaluate_cleared_without_project {σ β : Type} (E : EngineModel σ β)
    (compileRes : Except String (CompileResult σ)) (cursorLine : Nat)
    (cursorFilePath : Option String) (activeInkFile : Option String)
    (hasProject hasMainInk : Bool) :
    ((hasProject = false ∨ hasMainInk = false) →
      evaluateAtLine E compileRes cursorLine cursorFilePath hasProject hasMainInk =
        .cleared) ∧
    ((hasProject = false ∨ activeInkFile = none) →
      evaluateAtCursorDebounced E compileRes cursorLine hasProject activeInkFile
        hasMainInk = .clearedNow) ∧
    (∀ msg, EvalOutcome.cleared ≠ EvalOutcome.compileErrorShown msg) ∧
    EvalOutcome.cleared ≠ EvalOutcome.runtimeErrorShown := by
  refine ⟨?_, ?_, ?_, ?_⟩
  · intro h
    rcases h with h | h <;> simp [evaluateAtLine, h]
  · intro hd
    rcases hd with hd | hd <;> simp [evaluateAtCursorDebounced, hd]
  · intro msg hx
    exact EvalOutcome.noConfusion hx
  · intro hx
    exact EvalOutcome.noConfusion hx

/-- C8 witness: a loaded project with its main ink present but the
cursor's file not part of the project (no active ink file) is cleared by
the debounced entry on its own guard; and with no project loaded,
`evaluateAtLine` is cleared as well — in both cases despite an erroring
compile result. -/
theorem evaluate_cleared_without_project_witness :
    evaluateAtCursorDebounced engineNoChoices (.error "boom") 3 true none true =
      .clearedNow ∧
    evaluateAtLine engineNoChoices (.error "boom") 3 none false true = .cleared :=
  ⟨(evaluate_cleared_without_project engineNoChoices (.error "boom") 3 none none true
      true).2.1 (Or.inr rfl),
   (evaluate_cleared_without_project engineNoChoices (.error "boom") 3 none none false
      true).1 (Or.inl rfl)⟩

/-- C1: when probing succeeds and records a start line per choice index
(`none` standing for the `Infinity` recorded when no location is
available), the branch selector returns exactly the last (highest) index
whose recorded line is at or before the cursor line — that index itself
qualifies and bounds every qualifying index — and returns 0 when no
recorded line is at or before the cursor; for strictly ascending recorded
lines, an index whose line is at or before the cursor while the next
line (if any) is after it is the one selected. -/
theorem chooseBranchIndex_picks_last_le {σ β : Type} (E : EngineModel σ β) (story : σ)
    (cfp : Option String) (c : Nat) (len : Nat) (ls : List (Option Nat)) (storyEnd : σ)
    (hch : E.currentChoices story = some len) (hlen : 2 ≤ len)
    (hpr : probeBranches E (E.stateToJson story) story (List.range len) =
      .ok (ls, storyEnd)) :
    chooseBranchIndex E story cfp c =
      .ok (bestBranchOf ls c, E.loadJson storyEnd (E.stateToJson story)) ∧
    ((∀ i (h : i < ls.length), infLe ls[i] c = false) → bestBranchOf ls c = 0) ∧
    (∀ i (h : i < ls.length), infLe ls[i] c = true →
      ∃ hb : bestBranchOf ls c < ls.length,
        infLe ls[bestBranchOf ls c] c = true ∧ i ≤ bestBranchOf ls c) ∧
    (∀ i (h : i < ls.length),
      (∀ p q (hp : p < ls.length) (hq : q < ls.length), p < q →
        infLt ls[p] ls[q] = true) →
      infLe ls[i] c = true →
      (∀ hsi : i + 1 < ls.length, infLe ls[i + 1] c = false) →
      bestBranchOf ls c = i) := by
  have h0 : ¬ len = 0 := by omega
  have h1 : ¬ len = 1 := by omega
  refine ⟨?_, ?_, ?_, ?_⟩
  · simp [chooseBranchIndex, hch, h0, h1, hpr]
  · intro hfalse
    rcases bestBranchLoop_last c ls 0 0 with ⟨heq, _⟩ | ⟨m, hm, hmle, _, _⟩
    · exact heq
    · rw [hfalse m hm] at hmle
      exact Bool.noConfusion hmle
  · intro i hi hile
    rcases bestBranchLoop_last c ls 0 0 with ⟨_, hall⟩ | ⟨m, hm, hmle, heq, hmax⟩
    · rw [hall i hi] at hile
      exact Bool.noConfusion hile
    · have hb : bestBranchOf ls c = m := by simpa [bestBranchOf] using heq
      rw [hb]
      refine ⟨hm, hmle, ?_⟩
      by_contra hgt
      push_neg at hgt
      rw [hmax i hi hgt] at hile
      exact Bool.noConfusion hile
  · intro i hi hsorted hile hnext
    rcases bestBranchLoop_last c ls 0 0 with ⟨_, hall⟩ | ⟨m, hm, hmle, heq, hmax⟩
    · rw [hall i hi] at hile
      exact Bool.noConfusion hile
    · have hb : bestBranchOf ls c = m := by simpa [bestBranchOf] using heq
      rw [hb]
      by_contra hne
      have him : i ≤ m := by
        by_contra hgt
        push_neg at hgt
        rw [hmax i hi hgt] at hile
        exact Bool.noConfusion hile
      have hlt : i < m := by omega
      have hi1 : i + 1 < ls.length := by omega
      have hle1 : infLe ls[i + 1] c = true := by
        rcases Nat.eq_or_lt_of_le (Nat.succ_le_of_lt hlt) with he | hlt2
        · subst he
          exact hmle
        · exact infLe_of_infLt_of_infLe (hsorted (i + 1) m hi1 hm hlt2) hmle
      rw [hnext hi1] at hle1
      exact Bool.noConfusion hle1

/-- C1 witness: state 0 of `engineThreeChoices` has three choices whose
probed start lines are 5, 8 and 12; a cursor at line 9 selects branch
index 1 and the returned engine state is the restored saved state 0. -/
theorem chooseBranchIndex_picks_last_le_witness :
    chooseBranchIndex engineThreeChoices 0 none 9 = .ok (1, 0) := by
  have h := (chooseBranchIndex_picks_last_le engineThreeChoices 0 none 9 3
    [some 5, some 8, some 12] 102 rfl (by omega) rfl).1
  exact h

/-- C2 counterexample: the selector's probing has no protection against
exceptions — on an engine whose choice call throws after mutating the
state from 0 to 1, the selector exits by exception leaving the engine in
state 1, different from the saved state 0, even though reloading the
saved blob (identity serialization) would have restored state 0. -/
theorem chooseBranchIndex_exception_leaves_state :
    chooseBranchIndex engineThrowingChoice 0 none 7 = .error 1 ∧
    engineThrowingChoice.loadJson 1 (engineThrowingChoice.stateToJson 0) = 0 ∧
    (1 : Nat) ≠ 0 :=
  ⟨rfl, rfl, by omega⟩

/-- C2 amended: on every normal (non-exception) return of the branch
selector, the engine state handed back to the caller is the state saved
before probing began, for any engine whose load of the saved blob
restores the saved state. -/
theorem chooseBranchIndex_restores_on_ok {σ β : Type} (E : EngineModel σ β) (story : σ)
    (cfp : Option String) (c : Nat) (idx : Nat) (storyAfter : σ)
    (hload : ∀ s : σ, E.loadJson s (E.stateToJson story) = story)
    (hok : chooseBranchIndex E story cfp c = .ok (idx, storyAfter)) :
    storyAfter = story := by
  cases hch : E.currentChoices story with
  | none =>
    simp only [chooseBranchIndex, hch] at hok
    simp at hok
    exact hok.2.symm
  | some len =>
    simp only [chooseBranchIndex, hch] at hok
    by_cases h0 : len = 0
    · rw [if_pos h0] at hok
      simp at hok
      exact hok.2.symm
    · rw [if_neg h0] at hok
      by_cases h1 : len = 1
      · rw [if_pos h1] at hok
        simp at hok
        exact hok.2.symm
      · rw [if_neg h1] at hok
        cases hpr : probeBranches E (E.stateToJson story) story (List.range len) with
        | error sBad =>
          rw [hpr] at hok
          exact Except.noConfusion hok
        | ok pr =>
          obtain ⟨lines, storyEnd⟩ := pr
          rw [hpr] at hok
          simp at hok
          rw [← hok.2, hload]

/-- C2 amended witness: on `engineThreeChoices`, whose serialization is an
exact save/restore pair, the selector's normal return hands back the
pre-probe state 0. -/
theorem chooseBranchIndex_restores_on_ok_witness :
    chooseBranchIndex engineThreeChoices 0 none 20 = .ok (2, 0) ∧ (0 : Nat) = 0 :=
  ⟨rfl, chooseBranchIndex_restores_on_ok engineThreeChoices 0 none 20 2 0
    (fun _ => rfl) rfl⟩

/-- C3: in the Continuing state, one driver iteration stops with a
snapshot of the post-step state exactly when the post-step debug location
passes the file-identity check and its start line is at or past the
cursor line; otherwise the loop continues with the post-step state and an
updated fallback snapshot.  The third conjunct ties the stop test to the
file-identity check and the start-line comparison on the metadata. -/
theorem runToCursorLoop_stop_iff {σ β : Type} (E : EngineModel σ β)
    (cfp : Option String) (c : Nat) (fuel : Nat) (story : σ)
    (lastVars : List (String × JsValue))
    (hc : E.canContinue story = true) :
    (reachedAt (getCurrentLine (E.currentDebugMetadata (E.continueStep story)) cfp) c =
        true →
      runToCursorLoop E cfp c (fuel + 1) story lastVars =
        .ok (snapOf E (E.continueStep story))) ∧
    (reachedAt (getCurrentLine (E.currentDebugMetadata (E.continueStep story)) cfp) c =
        false →
      runToCursorLoop E cfp c (fuel + 1) story lastVars =
        runToCursorLoop E cfp c fuel (E.continueStep story)
          (snapOf E (E.continueStep story))) ∧
    (∀ s1 : σ,
      reachedAt (getCurrentLine (E.currentDebugMetadata s1) cfp) c = true ↔
        ∃ dm, E.currentDebugMetadata s1 = some dm ∧
          fileMatchesCursor (some dm) cfp = true ∧
          lineGE dm.startLineNumber c = true) := by
  refine ⟨?_, ?_, ?_⟩
  · intro hr
    simp [runToCursorLoop, hc, hr]
  · intro hr
    simp [runToCursorLoop, hc, hr]
  · intro s1
    cases hdm : E.currentDebugMetadata s1 with
    | none => simp [reachedAt, getCurrentLine, hdm]
    | some dm => simp [reachedAt, getCurrentLine, hdm]

/-- C3 witness: on the linear engine at state 1 with a cursor at line 5,
the next step lands on line 7, which is at or past the cursor, so the
iteration returns the post-step snapshot `x = 2`. -/
theorem runToCursorLoop_stop_iff_witness :
    runToCursorLoop engineLinear none 5 4 1 [] = .ok [("x", JsValue.vNum 2)] := by
  have h := (runToCursorLoop_stop_iff engineLinear none 5 3 1 [] rfl).1 rfl
  exact h

/-- C10: when the engine reports no debug metadata after a step, the stop
test is false for every cursor line and file, and the iteration continues
the loop rather than returning. -/
theorem runToCursorLoop_no_metadata_continues {σ β : Type} (E : EngineModel σ β)
    (cfp : Option String) (c : Nat) (fuel : Nat) (story : σ)
    (lastVars : List (String × JsValue))
    (hc : E.canContinue story = true)
    (hdm : E.currentDebugMetadata (E.continueStep story) = none) :
    reachedAt (getCurrentLine (E.currentDebugMetadata (E.continueStep story)) cfp) c =
      false ∧
    runToCursorLoop E cfp c (fuel + 1) story lastVars =
      runToCursorLoop E cfp c fuel (E.continueStep story)
        (snapOf E (E.continueStep story)) := by
  have hr : reachedAt (getCurrentLine (E.currentDebugMetadata (E.continueStep story)) cfp)
      c = false := by
    simp [hdm, getCurrentLine, reachedAt]
  exact ⟨hr, by simp [runToCursorLoop, hc, hr]⟩

/-- C10 witness: an engine step with no metadata never satisfies the stop
test; the iteration reduces to the next loop iteration. -/
theorem runToCursorLoop_no_metadata_continues_witness :
    runToCursorLoop engineInfinite none 1 1 0 [] =
      runToCursorLoop engineInfinite none 1 0 0 [] := by
  have h := (runToCursorLoop_no_metadata_continues engineInfinite none 1 0 0 [] rfl rfl).2
  exact h

/-- The driver loop on an engine that can always continue and never
satisfies the stop test consumes its whole fuel and returns the snapshot
of the state after `fuel` steps. -/
lemma runToCursorLoop_always_continue {σ β : Type} (E : EngineModel σ β)
    (cfp : Option String) (c : Nat)
    (hcont : ∀ s, E.canContinue s = true)
    (hnr : ∀ s, reachedAt (getCurrentLine (E.currentDebugMetadata s) cfp) c = false) :
    ∀ (fuel : Nat) (story : σ),
      runToCursorLoop E cfp c fuel story (snapOf E story) =
        .ok (snapOf E (E.continueStep^[fuel] story)) := by
  intro fuel
  induction fuel with
  | zero =>
    intro story
    simp [runToCursorLoop]
  | succ n ih =>
    intro story
    have h := ih (E.continueStep story)
    rw [Function.iterate_succ_apply]
    simp only [runToCursorLoop, hcont story, hnr (E.continueStep story), if_true]
    simpa using h

/-- C5: for every engine that can always continue and never reaches the
cursor (an infinite-loop script), the driver performs exactly the hard
step ceiling of `MAX_STEPS = 10000` iterations and terminates with a
non-error result: the snapshot captured after the last of those steps. -/
theorem runToCursor_step_ceiling {σ β : Type} (E : EngineModel σ β) (story : σ)
    (cfp : Option String) (c : Nat)
    (hcont : ∀ s, E.canContinue s = true)
    (hnr : ∀ s, reachedAt (getCurrentLine (E.currentDebugMetadata s) cfp) c = false) :
    runToCursor E story cfp c = .ok (snapOf E (E.continueStep^[MAX_STEPS] story)) :=
  runToCursorLoop_always_continue E cfp c hcont hnr MAX_STEPS story

/-- C5 witness: on a concrete infinite-loop engine the driver terminates
with the best-effort snapshot (the empty mapping) instead of hanging or
erroring. -/
theorem runToCursor_step_ceiling_witness :
    runToCursor engineInfinite 0 none 1 =
      .ok (snapOf engineInfinite (engineInfinite.continueStep^[MAX_STEPS] 0)) ∧
    snapOf engineInfinite (engineInfinite.continueStep^[MAX_STEPS] 0) = [] := by
  constructor
  · exact runToCursor_step_ceiling engineInfinite 0 none 1 (fun _ => rfl) (fun _ => rfl)
  · rw [Function.iterate_fixed rfl MAX_STEPS]
    rfl

/-- If the `k`-th step (k >= 1) is the first whose post-step location
satisfies the stop test, and the engine can continue up to it within the
fuel, the loop returns the snapshot of the state after that step. -/
lemma runToCursorLoop_reach {σ β : Type} (E : EngineModel σ β)
    (cfp : Option String) (c : Nat) :
    ∀ (k fuel : Nat) (story : σ) (lastVars : List (String × JsValue)),
      1 ≤ k → k ≤ fuel →
      (∀ j, j < k → E.canContinue (E.continueStep^[j] story) = true) →
      (∀ j, 1 ≤ j → j < k →
        reachedAt
          (getCurrentLine (E.currentDebugMetadata (E.continueStep^[j] story)) cfp) c =
          false) →
      reachedAt
        (getCurrentLine (E.currentDebugMetadata (E.continueStep^[k] story)) cfp) c =
        true →
      runToCursorLoop E cfp c fuel story lastVars =
        .ok (snapOf E (E.continueStep^[k] story)) := by
  intro k
  induction k with
  | zero =>
    intro fuel story lv h1
    omega
  | succ k ih =>
    intro fuel story lv h1 hfuel hcan hnr hreach
    obtain ⟨f, rfl⟩ : ∃ f, fuel = f + 1 := ⟨fuel - 1, by omega⟩
    have hc0 : E.canContinue story = true := by simpa using hcan 0 (by omega)
    by_cases hk : k = 0
    · subst hk
      have hr1 : reachedAt
          (getCurrentLine (E.currentDebugMetadata (E.continueStep story)) cfp) c =
          true := by
        simpa [Function.iterate_one] using hreach
      simp [runToCursorLoop, hc0, hr1, Function.iterate_one]
    · have hk1 : 1 ≤ k := by omega
      have hr1 : reachedAt
          (getCurrentLine (E.currentDebugMetadata (E.continueStep story)) cfp) c =
          false := by
        simpa [Function.iterate_one] using hnr 1 (by omega) (by omega)
      have hstep : runToCursorLoop E cfp c (f + 1) story lv =
          runToCursorLoop E cfp c f (E.continueStep story)
            (snapOf E (E.continueStep story)) := by
        simp [runToCursorLoop, hc0, hr1]
      rw [hstep]
      have happ : ∀ j : Nat,
          E.continueStep^[j] (E.continueStep story) = E.continueStep^[j + 1] story := by
        intro j
        rw [← Function.iterate_succ_apply]
      have hres := ih f (E.continueStep story) (snapOf E (E.continueStep story)) hk1
        (by omega)
        (fun j hj => by rw [happ]; exact hcan (j + 1) (by omega))
        (fun j hj1 hj2 => by rw [happ]; exact hnr (j + 1) (by omega) (by omega))
        (by rw [happ]; exact hreach)
      rw [hres, happ]

/-- If after `n` steps (each with a non-satisfying post-step location) the
engine can no longer continue and offers no choices, the loop returns the
snapshot of that final state, provided the fuel exceeds `n`. -/
lemma runToCursorLoop_end {σ β : Type} (E : EngineModel σ β)
    (cfp : Option String) (c : Nat) :
    ∀ (n fuel : Nat) (story : σ) (lastVars : List (String × JsValue)),
      n < fuel →
      (∀ j, j < n → E.canContinue (E.continueStep^[j] story) = true) →
      (∀ j, 1 ≤ j → j ≤ n →
        reachedAt
          (getCurrentLine (E.currentDebugMetadata (E.continueStep^[j] story)) cfp) c =
          false) →
      E.canContinue (E.continueStep^[n] story) = false →
      (E.currentChoices (E.continueStep^[n] story) = none ∨
       E.currentChoices (E.continueStep^[n] story) = some 0) →
      runToCursorLoop E cfp c fuel story lastVars =
        .ok (snapOf E (E.continueStep^[n] story)) := by
  intro n
  induction n with
  | zero =>
    intro fuel story lv hfuel hcan hnr hstop hch
    obtain ⟨f, rfl⟩ : ∃ f, fuel = f + 1 := ⟨fuel - 1, by omega⟩
    have hs : E.canContinue story = false := by simpa using hstop
    have h0 : E.continueStep^[0] story = story := rfl
    rw [h0] at hch ⊢
    rcases hch with hch | hch
    · simp [runToCursorLoop, hs, hch]
    · simp [runToCursorLoop, hs, hch]
  | succ n ih =>
    intro fuel story lv hfuel hcan hnr hstop hch
    obtain ⟨f, rfl⟩ : ∃ f, fuel = f + 1 := ⟨fuel - 1, by omega⟩
    have hc0 : E.canContinue story = true := by simpa using hcan 0 (by omega)
    have hr1 : reachedAt
        (getCurrentLine (E.currentDebugMetadata (E.continueStep story)) cfp) c =
        false := by
      simpa [Function.iterate_one] using hnr 1 (by omega) (by omega)
    have hstep : runToCursorLoop E cfp c (f + 1) story lv =
        runToCursorLoop E cfp c f (E.continueStep story)
          (snapOf E (E.continueStep story)) := by
      simp [runToCursorLoop, hc0, hr1]
    rw [hstep]
    have happ : ∀ j : Nat,
        E.continueStep^[j] (E.continueStep story) = E.continueStep^[j + 1] story := by
      intro j
      rw [← Function.iterate_succ_apply]
    have hres := ih f (E.continueStep story) (snapOf E (E.continueStep story))
      (by omega)
      (fun j hj => by rw [happ]; exact hcan (j + 1) (by omega))
      (fun j hj1 hj2 => by rw [happ]; exact hnr (j + 1) (by omega) (by omega))
      (by rw [happ]; exact hstop)
      (by rw [happ]; exact hch)
    rw [hres, happ]

/-- C4 counterexample: on a choice-free linear engine with cursor line 5,
the first post-step location at or past the cursor appears after step 2
(step 1 lands on line 3, step 2 on line 7), the state immediately before
that step holds `x = 1`, yet the driver returns the post-step snapshot
`x = 2` — not the state the engine held immediately before the first
qualifying debug location. -/
theorem runToCursor_snapshot_after_reach_cx :
    engineLinear.currentChoices 0 = none ∧
    engineLinear.currentChoices 1 = none ∧
    engineLinear.currentChoices 2 = none ∧
    reachedAt (getCurrentLine (engineLinear.currentDebugMetadata 1) none) 5 = false ∧
    reachedAt (getCurrentLine (engineLinear.currentDebugMetadata 2) none) 5 = true ∧
    engineLinear.continueStep 0 = 1 ∧
    engineLinear.continueStep 1 = 2 ∧
    snapOf engineLinear 1 = [("x", JsValue.vNum 1)] ∧
    runToCursor engineLinear 0 none 5 = .ok [("x", JsValue.vNum 2)] ∧
    ([("x", JsValue.vNum 2)] : List (String × JsValue)) ≠ [("x", JsValue.vNum 1)] := by
  refine ⟨rfl, rfl, rfl, rfl, rfl, rfl, rfl, rfl, rfl, by decide⟩

/-- C4 amended: for a choice-free script, the driver's snapshot equals
the variable state immediately AFTER executing the step that first
produces a debug location with start line at or past the cursor (that
step's assignments already applied), or the final state when the story
ends without the stop test ever holding (cursor past every location). -/
theorem runToCursor_zero_choices {σ β : Type} (E : EngineModel σ β) (story : σ)
    (cfp : Option String) (c : Nat) :
    (∀ k, 1 ≤ k → k ≤ MAX_STEPS →
      (∀ j, j < k → E.canContinue (E.continueStep^[j] story) = true) →
      (∀ j, 1 ≤ j → j < k →
        reachedAt
          (getCurrentLine (E.currentDebugMetadata (E.continueStep^[j] story)) cfp) c =
          false) →
      reachedAt
        (getCurrentLine (E.currentDebugMetadata (E.continueStep^[k] story)) cfp) c =
        true →
      runToCursor E story cfp c = .ok (snapOf E (E.continueStep^[k] story))) ∧
    (∀ n, n < MAX_STEPS →
      (∀ j, j < n → E.canContinue (E.continueStep^[j] story) = true) →
      (∀ j, 1 ≤ j → j ≤ n →
        reachedAt
          (getCurrentLine (E.currentDebugMetadata (E.continueStep^[j] story)) cfp) c =
          false) →
      E.canContinue (E.continueStep^[n] story) = false →
      (E.currentChoices (E.continueStep^[n] story) = none ∨
       E.currentChoices (E.continueStep^[n] story) = some 0) →
      runToCursor E story cfp c = .ok (snapOf E (E.continueStep^[n] story))) := by
  constructor
  · intro k h1 h2 hcan hnr hreach
    exact runToCursorLoop_reach E cfp c k MAX_STEPS story (snapOf E story)
      h1 h2 hcan hnr hreach
  · intro n h1 hcan hnr hstop hch
    exact runToCursorLoop_end E cfp c n MAX_STEPS story (snapOf E story)
      h1 hcan hnr hstop hch

/-- C4 amended witness: on the linear engine, step 2 is the first whose
location (line 7) is at or past the cursor line 5, and the driver returns
the post-step snapshot `x = 2`. -/
theorem runToCursor_zero_choices_witness :
    runToCursor engineLinear 0 none 5 = .ok [("x", JsValue.vNum 2)] := by
  have h := (runToCursor_zero_choices engineLinear 0 none 5).1 2 (by omega)
    (by decide)
    (fun j hj => by interval_cases j <;> rfl)
    (fun j hj1 hj2 => by interval_cases j; rfl)
    rfl
  exact h

/-- Everything already collected stays in the result of the snapshot loop. -/
lemma snapVarsLoop_acc_mem (g : String → Except Unit JsValue) :
    ∀ (names : List String) (acc : List (String × JsValue)) (p : String × JsValue),
      p ∈ acc → p ∈ snapVarsLoop g names acc := by
  intro names
  induction names with
  | nil =>
    intro acc p hp
    simpa [snapVarsLoop] using hp
  | cons name rest ih =>
    intro acc p hp
    cases hg : g name with
    | ok v =>
      simp only [snapVarsLoop, hg]
      exact ih _ p (by simp [hp])
    | error e =>
      simp only [snapVarsLoop, hg]
      exact ih _ p hp

/-- A name whose lookup succeeds contributes its coerced value to the
snapshot loop's result. -/
lemma snapVarsLoop_mem_ok (g : String → Except Unit JsValue) :
    ∀ (names : List String) (acc : List (String × JsValue)) (name : String) (v : JsValue),
      name ∈ names → g name = .ok v →
      (name, coerceValue v) ∈ snapVarsLoop g names acc := by
  intro names
  induction names with
  | nil =>
    intro acc name v h
    simp at h
  | cons hd rest ih =>
    intro acc name v hmem hg
    rcases List.mem_cons.mp hmem with heq | hmem2
    · subst heq
      simp only [snapVarsLoop, hg]
      exact snapVarsLoop_acc_mem g rest _ _ (by simp)
    · cases hg2 : g hd with
      | ok w =>
        simp only [snapVarsLoop, hg2]
        exact ih _ name v hmem2 hg
      | error e =>
        simp only [snapVarsLoop, hg2]
        exact ih _ name v hmem2 hg

/-- A name whose lookup never succeeds and which is absent from the
accumulator is absent from the snapshot loop's result. -/
lemma snapVarsLoop_not_mem_err (g : String → Except Unit JsValue) :
    ∀ (names : List String) (acc : List (String × JsValue)) (name : String),
      (∀ w, g name ≠ .ok w) →
      (∀ v, (name, v) ∉ acc) →
      ∀ v, (name, v) ∉ snapVarsLoop g names acc := by
  intro names
  induction names with
  | nil =>
    intro acc name hne hacc v
    simpa [snapVarsLoop] using hacc v
  | cons hd rest ih =>
    intro acc name hne hacc v
    cases hg : g hd with
    | ok w =>
      simp only [snapVarsLoop, hg]
      refine ih _ name hne ?_ v
      intro u hu
      rcases List.mem_append.mp hu with h | h
      · exact hacc u h
      · simp at h
        obtain ⟨h1, _⟩ := h
        subst h1
        exact hne w hg
    | error e =>
      simp only [snapVarsLoop, hg]
      exact ih _ name hne hacc v

/-- C6: the variable snapshotter is a total function (it cannot raise);
for an accessible state, a name whose lookup throws is merely omitted
while every name whose lookup succeeds appears with its coerced value;
and any entirely inaccessible state object yields the empty mapping. -/
theorem snapshotVariablesState_partial (st : SnapStory) (names : List String)
    (h1 : st.hasState = true)
    (h2 : ∃ s, truthyStr st.jsonStr = some s)
    (h3 : st.parsedVariablesState = some (some names))
    (h4 : st.hasGetVar = true) :
    (∀ name, name ∈ names → st.getVar name = .error () →
      ∀ v, (name, v) ∉ snapshotVariablesState st) ∧
    (∀ name v, name ∈ names → st.getVar name = .ok v →
      (name, coerceValue v) ∈ snapshotVariablesState st) ∧
    (∀ st2 : SnapStory, st2.hasState = false → snapshotVariablesState st2 = []) := by
  obtain ⟨s, hs⟩ := h2
  have hunfold : snapshotVariablesState st = snapVarsLoop st.getVar names [] := by
    simp [snapshotVariablesState, h1, hs, h3, h4]
  refine ⟨?_, ?_, ?_⟩
  · intro name hmem herr v
    rw [hunfold]
    refine snapVarsLoop_not_mem_err st.getVar names [] name ?_ (by simp) v
    intro w hw
    rw [herr] at hw
    exact Except.noConfusion hw
  · intro name v hmem hok
    rw [hunfold]
    exact snapVarsLoop_mem_ok st.getVar names [] name v hmem hok
  · intro st2 h
    simp [snapshotVariablesState, h]

/-- C6 witness: on a concrete state with variables `a` and `b` where
reading `b` throws, `a` still appears in the snapshot and `b` is omitted. -/
theorem snapshotVariablesState_partial_witness :
    ("a", JsValue.vNum 1) ∈ snapshotVariablesState snapStoryPartial ∧
    ("b", JsValue.vNull) ∉ snapshotVariablesState snapStoryPartial := by
  have h := snapshotVariablesState_partial snapStoryPartial ["a", "b"] rfl ⟨"{}", rfl⟩
    rfl rfl
  constructor
  · exact h.2.1 "a" (JsValue.vNum 1) (by simp) rfl
  · exact h.1 "b" (by simp) rfl JsValue.vNull
